import Mathlib

/-!
Shallow embedding of the networkchain node (src/networkchain/main.go):
the wire command framing, the framed-message read, the gob payload codec,
the peer registry and the protocol message handlers.  Bytes are modelled
as `Nat` (wire values are 0..255); Go byte slices are `List Nat`.
-/

namespace Networkchain

/-- `commandLength = 12`: the fixed length of the command field in a message. -/
def commandLength : Nat := 12

/-- `nodeVersion = 1`: the version of the node software (Go `int`, modelled `Int`). -/
def nodeVersion : Int := 1

/-- `var knownNodes = []string{"localhost:3000"}`: the initial known-node list;
its first element is the bootstrap address. -/
def initialKnownNodes : List String := ["localhost:3000"]

/-- Loop of `bytesToCommand`: walks `data` appending every byte that is not
`0x0` to the accumulator `command`. -/
def bytesToCommandAux (command : List Nat) : List Nat → List Nat
  | [] => command
  | b :: rest =>
    if b ≠ 0 then bytesToCommandAux (command ++ [b]) rest
    else bytesToCommandAux command rest

/-- `bytesToCommand`: converts the fixed-width command field back to a name by
keeping exactly the nonzero bytes of `data`, wherever they occur. -/
def bytesToCommand (data : List Nat) : List Nat :=
  bytesToCommandAux [] data

/-- A single Go array store `data[i] = v`: an in-bounds index updates the
array, an out-of-range index is a runtime panic, modelled as `none`. -/
def setByte (data : List Nat) (i : Nat) (v : Nat) : Option (List Nat) :=
  if i < data.length then some (data.set i v) else none

/-- Loop of `commandToBytes`: writes each byte of the command at its index
into the fixed 12-byte array, one store per byte. -/
def commandToBytesAux (data : List Nat) (i : Nat) : List Nat → Option (List Nat)
  | [] => some data
  | c :: rest =>
    match setByte data i c with
    | none => none
    | some d => commandToBytesAux d (i + 1) rest

/-- `commandToBytes`: encodes a command name into the zero-initialised array
`var data [commandLength]byte` by indexed stores; `none` models the
index-out-of-range panic raised when the name is longer than the array. -/
def commandToBytes (command : List Nat) : Option (List Nat) :=
  commandToBytesAux (List.replicate commandLength 0) 0 command

lemma bytesToCommandAux_eq_filter (data : List Nat) :
    ∀ acc : List Nat,
      bytesToCommandAux acc data = acc ++ data.filter (fun b => decide (b ≠ 0)) := by
  induction data with
  | nil => intro acc; simp [bytesToCommandAux]
  | cons b rest ih =>
    intro acc
    by_cases hb : b = 0
    · simp [bytesToCommandAux, hb, ih]
    · simp [bytesToCommandAux, hb, ih]

lemma bytesToCommand_eq_filter (data : List Nat) :
    bytesToCommand data = data.filter (fun b => decide (b ≠ 0)) := by
  simpa [bytesToCommand] using bytesToCommandAux_eq_filter data []

lemma set_append_cons (pre : List Nat) (q c : Nat) (qs : List Nat) :
    (pre ++ q :: qs).set pre.length c = pre ++ c :: qs := by
  induction pre with
  | nil => simp
  | cons a pre ih => simp [List.set, ih]

lemma commandToBytesAux_spec (cmd : List Nat) :
    ∀ (pre post : List Nat), cmd.length ≤ post.length →
      commandToBytesAux (pre ++ post) pre.length cmd =
        some (pre ++ cmd ++ post.drop cmd.length) := by
  induction cmd with
  | nil => intro pre post _; simp [commandToBytesAux]
  | cons c rest ih =>
    intro pre post hlen
    cases post with
    | nil => simp at hlen
    | cons q qs =>
      have hil : pre.length < (pre ++ q :: qs).length := by
        simp
      have hset : setByte (pre ++ q :: qs) pre.length c = some (pre ++ c :: qs) := by
        simp [setByte, hil, set_append_cons]
      have hrec := ih (pre ++ [c]) qs (by simpa using hlen)
      simp only [commandToBytesAux, hset]
      have hlen2 : (pre ++ [c]).length = pre.length + 1 := by simp
      calc commandToBytesAux (pre ++ c :: qs) (pre.length + 1) rest
          = commandToBytesAux ((pre ++ [c]) ++ qs) (pre ++ [c]).length rest := by
            simp [hlen2]
        _ = some ((pre ++ [c]) ++ rest ++ qs.drop rest.length) := hrec
        _ = some (pre ++ c :: rest ++ (q :: qs).drop (c :: rest).length) := by
            simp

lemma commandToBytes_eq_of_le (name : List Nat) (h : name.length ≤ commandLength) :
    commandToBytes name =
      some (name ++ List.replicate (commandLength - name.length) 0) := by
  have := commandToBytesAux_spec name [] (List.replicate commandLength 0)
    (by simpa using h)
  simpa [commandToBytes, List.drop_replicate] using this

lemma commandToBytesAux_none (cmd : List Nat) :
    ∀ (data : List Nat) (i : Nat), i ≤ data.length → data.length < i + cmd.length →
      commandToBytesAux data i cmd = none := by
  induction cmd with
  | nil => intro data i hle hlt; simp only [List.length_nil] at hlt; omega
  | cons c rest ih =>
    intro data i hle hlt
    simp only [List.length_cons] at hlt
    by_cases hi : i < data.length
    · have hset : setByte data i c = some (data.set i c) := by simp [setByte, hi]
      simp only [commandToBytesAux, hset]
      exact ih (data.set i c) (i + 1) (by simp only [List.length_set]; omega)
        (by simp only [List.length_set]; omega)
    · have hset : setByte data i c = none := by simp [setByte, hi]
      simp [commandToBytesAux, hset]

lemma commandToBytes_none (name : List Nat) (h : commandLength < name.length) :
    commandToBytes name = none :=
  commandToBytesAux_none name (List.replicate commandLength 0) 0 (by simp)
    (by simpa using h)

/-- Claim C5 counterexample: the one-byte command name consisting of the zero
byte is shorter than the 12-byte width, yet it does not survive the
encode/decode round trip — decoding strips every zero byte, so the name comes
back empty. -/
theorem command_roundtrip_zero_cex :
    (commandToBytes [0]).map bytesToCommand ≠ some [0] := by decide

/-- Claim C5 (amended): for every command name shorter than the fixed 12-byte
width none of whose bytes is zero, decoding the encoded command returns the
original name; `commandToBytes` zero-pads the name into the 12-byte field and
`bytesToCommand` strips the zero bytes back off. -/
theorem command_roundtrip_nonzero (name : List Nat)
    (hlen : name.length < commandLength) (hnz : ∀ b ∈ name, b ≠ 0) :
    (commandToBytes name).map bytesToCommand = some name := by
  rw [commandToBytes_eq_of_le name (le_of_lt hlen)]
  have h1 : name.filter (fun b => decide (b ≠ 0)) = name :=
    List.filter_eq_self.mpr (by intro a ha; simpa using hnz a ha)
  have h2 : (List.replicate (commandLength - name.length) 0).filter
      (fun b => decide (b ≠ 0)) = [] := by
    apply List.filter_eq_nil_iff.mpr
    intro a ha
    have := List.eq_of_mem_replicate ha
    simp [this]
  have hmain : bytesToCommand (name ++ List.replicate (commandLength - name.length) 0)
      = name := by
    rw [bytesToCommand_eq_filter, List.filter_append, h1, h2, List.append_nil]
  simp [hmain]

/-- Claim C5 witness: the representative name "ver" (bytes 118, 101, 114)
round-trips through the command codec. -/
theorem command_roundtrip_nonzero_witness :
    (commandToBytes [118, 101, 114]).map bytesToCommand = some [118, 101, 114] :=
  command_roundtrip_nonzero [118, 101, 114] (by decide) (by decide)

/-- Claim C8 counterexample: encoding the 13-byte name made of thirteen
copies of byte 97 performs an out-of-range store into the fixed 12-byte
array (`none` models the Go index-out-of-range panic): the encode is neither
a rejection nor a truncation policy and is not total. -/
theorem commandToBytes_long_name_cex :
    commandToBytes (List.replicate 13 97) = none := by decide

/-- Claim C8 (amended): `commandToBytes` is total exactly on names of at most
the 12-byte width (a name of exactly the width fills the array with no
padding); a strictly longer name hits an out-of-range array store, which in
Go is a runtime panic — there is no reject-or-truncate policy. -/
theorem commandToBytes_totality :
    (∀ name : List Nat, name.length ≤ commandLength →
      (commandToBytes name).isSome = true) ∧
    (∀ name : List Nat, commandLength < name.length →
      commandToBytes name = none) := by
  constructor
  · intro name h
    rw [commandToBytes_eq_of_le name h]
    rfl
  · intro name h
    exact commandToBytes_none name h

/-- Claim C10: `bytesToCommand` removes every zero byte of its input wherever
it occurs (it equals a filter keeping the nonzero bytes); hence any two
inputs agreeing on their subsequence of nonzero bytes decode to the same
name, and a command name with an interior zero byte — here bytes
118, 0, 116 — does not survive the encode/decode round trip. -/
theorem bytesToCommand_strips_all_zeros :
    (∀ data : List Nat, bytesToCommand data = data.filter (fun b => decide (b ≠ 0))) ∧
    (∀ xs ys : List Nat,
      xs.filter (fun b => decide (b ≠ 0)) = ys.filter (fun b => decide (b ≠ 0)) →
        bytesToCommand xs = bytesToCommand ys) ∧
    (commandToBytes [118, 0, 116]).map bytesToCommand = some [118, 116] ∧
    (commandToBytes [118, 0, 116]).map bytesToCommand ≠ some [118, 0, 116] := by
  refine ⟨bytesToCommand_eq_filter, ?_, by decide, by decide⟩
  intro xs ys h
  rw [bytesToCommand_eq_filter, bytesToCommand_eq_filter, h]

/-- `request := make([]byte, commandLength)` followed by one `conn.Read(request)`:
the single read fills the 12-byte buffer with the first bytes of the wire
stream, leaving untouched positions zero.  This is the only read the
connection handler performs. -/
def readRequest (wire : List Nat) : List Nat :=
  wire.take commandLength ++ List.replicate (commandLength - wire.length) 0

/-- The payload slice a dispatched handler decodes: `request[commandLength:]`
of the buffer the single read produced. -/
def payloadSeen (wire : List Nat) : List Nat :=
  (readRequest wire).drop commandLength

lemma readRequest_length (wire : List Nat) :
    (readRequest wire).length = commandLength := by
  simp only [readRequest, List.length_append, List.length_take, List.length_replicate]
  omega

lemma payloadSeen_eq_nil (wire : List Nat) : payloadSeen wire = [] := by
  have h := readRequest_length wire
  simp only [payloadSeen]
  exact List.drop_eq_nil_of_le (le_of_eq h)

/-- A wire frame carrying the command "ping" (bytes 112, 105, 110, 103,
zero-padded to 12 bytes) followed by a 3-byte payload. -/
def examplePingWire : List Nat :=
  [112, 105, 110, 103] ++ List.replicate 8 0 ++ [42, 42, 42]

/-- Claim C2: `handleConnection` allocates a `commandLength`-byte buffer and
performs a single read into it, so the request it dispatches on is always
exactly 12 bytes and the slice `request[commandLength:]` handed to the
selected handler is always empty — on a concrete "ping" frame the command is
decoded and dispatched, but the 3 payload bytes present on the wire after the
command field never reach the handler. -/
theorem handleConnection_reads_only_command :
    (∀ wire : List Nat,
      (readRequest wire).length = commandLength ∧ payloadSeen wire = []) ∧
    bytesToCommand (readRequest examplePingWire) = [112, 105, 110, 103] ∧
    examplePingWire.drop commandLength = [42, 42, 42] ∧
    payloadSeen examplePingWire = [] := by
  refine ⟨fun wire => ⟨readRequest_length wire, payloadSeen_eq_nil wire⟩,
    by decide, by decide, by decide⟩

/-- A transaction: `{ id: content-derived identifier, payload: opaque bytes }`.
The Transaction type itself is defined outside this file; this record follows
the spec's data model. -/
structure Transaction where
  ID : List Nat
  TxData : List Nat
deriving DecidableEq

/-- Modelled from the spec: the transaction serialization format is left
unspecified (§9, open question), so serialization is modelled as the identity
and a serialized transaction on the wire is the transaction itself;
`DeserializeTransaction` is then the identity as well. -/
def DeserializeTransaction (t : Transaction) : Transaction := t

/-- Modelled from the spec: the Blockchain lives outside this file; for the
network handlers it is the ordered block sequence (each block holding the
transactions folded into it) together with the mempool. -/
structure Blockchain where
  Blocks : List (List Transaction)
  Mempool : List Transaction
deriving DecidableEq

/-- Modelled from the spec: `GetBestHeight` is the ledger height query,
`Height() = len(blocks)`. -/
def GetBestHeight (bc : Blockchain) : Int :=
  (bc.Blocks.length : Int)

/-- Modelled from the spec: `AddTxToMempool` inserts the transaction into the
mempool if its id is not already present, and otherwise is a no-op. -/
def AddTxToMempool (bc : Blockchain) (tx : Transaction) : Blockchain :=
  if bc.Mempool.any (fun t => t.ID == tx.ID) then bc
  else { bc with Mempool := bc.Mempool ++ [tx] }

/-- Modelled from the spec: `MineBlock` folds the current mempool contents
into a newly appended block and clears the folded transactions. -/
def MineBlock (bc : Blockchain) : Blockchain :=
  { Blocks := bc.Blocks ++ [bc.Mempool], Mempool := [] }

/-- The payload of a `version` message: `{Version int, BestHeight int,
AddrFrom string}`. -/
structure VersionMsg where
  Version : Int
  BestHeight : Int
  AddrFrom : String
deriving DecidableEq

/-- The payload of a `tx` message: `{AddrFrom string, Transaction []byte}`
(the serialized transaction, modelled as the transaction itself). -/
structure TxMsg where
  AddrFrom : String
  Transaction : Transaction
deriving DecidableEq

/-- The payload of an `addr` message: `{AddrList []string}`. -/
structure AddrMsg where
  AddrList : List String
deriving DecidableEq

/-- The payload of a `ping` message: the `Ping` struct declares exactly one
field, `Nonce int64` — it carries no sender address. -/
structure PingMsg where
  Nonce : Int
deriving DecidableEq

/-- An outbound protocol message, by command. -/
inductive Msg where
  | version (ver : Int) (bestHeight : Int) (addrFrom : String)
  | getblocks (addrFrom : String)
  | inv (addrFrom : String) (typ : String) (items : List (List Nat))
  | pong (nonce : Int)
deriving DecidableEq

/-- An observable action of a handler: a message sent to a peer, or a line
written to the local log. -/
inductive Effect where
  | send (dst : String) (m : Msg)
  | logLine (s : String)
deriving DecidableEq

/-- The node-level mutable state the handlers share: the global `nodeAddress`,
the global `knownNodes` list and the node's blockchain. -/
structure NodeState where
  nodeAddress : String
  knownNodes : List String
  bc : Blockchain
deriving DecidableEq

/-- `nodeIsKnown`: linear scan of the known-node list for the address. -/
def nodeIsKnown (address : String) (known : List String) : Bool :=
  known.any (fun node => node == address)

/-- `sendVersion`: sends this node's own version, best height and address. -/
def sendVersion (address : String) (st : NodeState) : Effect :=
  Effect.send address (Msg.version nodeVersion (GetBestHeight st.bc) st.nodeAddress)

/-- Modelled from the spec: `sendGetBlocks` is defined outside this file; it
sends a `getblocks` message whose payload names this node as sender. -/
def sendGetBlocks (self address : String) : Effect :=
  Effect.send address (Msg.getblocks self)

/-- Modelled from the spec: `sendInv` is defined outside this file; it sends
an `inv` message with the given type and item hashes, naming this node as
sender. -/
def sendInv (self address typ : String) (items : List (List Nat)) : Effect :=
  Effect.send address (Msg.inv self typ items)

/-- `sendPong`: sends a `pong` message carrying the given nonce. -/
def sendPong (address : String) (nonce : Int) : Effect :=
  Effect.send address (Msg.pong nonce)

/-- `handleVersion` after its payload decoded: log the peer info; reply with
our own version when the peer's is lower, print the upgrade notice when it is
higher; send `getblocks` when the peer's best height exceeds ours; append the
peer's address to `knownNodes` when it is not yet known. -/
def handleVersion (st : NodeState) (p : VersionMsg) : NodeState × List Effect :=
  let effects :=
    [Effect.logLine "Received version"] ++
    (if p.Version < nodeVersion then [sendVersion p.AddrFrom st]
     else if nodeVersion < p.Version then
       [Effect.logLine "Please update your node software"]
     else []) ++
    (if GetBestHeight st.bc < p.BestHeight then
       [sendGetBlocks st.nodeAddress p.AddrFrom]
     else [])
  let known2 :=
    if nodeIsKnown p.AddrFrom st.knownNodes then st.knownNodes
    else st.knownNodes ++ [p.AddrFrom]
  ({ st with knownNodes := known2 }, effects)

/-- `handleTx` after its payload decoded: deserialize and add the transaction
to the mempool; the bootstrap node (`nodeAddress == knownNodes[0]`) gossips an
`inv` of type "tx" to every known node other than itself and the sender; any
other node mines immediately when the mempool has reached an even size of at
least 2. -/
def handleTx (st : NodeState) (p : TxMsg) : NodeState × List Effect :=
  let tx := DeserializeTransaction p.Transaction
  let bc1 := AddTxToMempool st.bc tx
  let logs := [Effect.logLine "Received a new transaction",
               Effect.logLine "Added transaction"]
  if st.nodeAddress = st.knownNodes.headD "" then
    ({ st with bc := bc1 },
      logs ++ (st.knownNodes.filter
          (fun node => node != st.nodeAddress && node != p.AddrFrom)).map
        (fun node => sendInv st.nodeAddress node "tx" [tx.ID]))
  else if 2 ≤ bc1.Mempool.length ∧ bc1.Mempool.length % 2 = 0 then
    ({ st with bc := MineBlock bc1 }, logs)
  else
    ({ st with bc := bc1 }, logs)

/-- The loop of `handleAddr`: each address of the list is appended to the
known-node list when not already known, scanning the list as updated so far. -/
def mergeAddrs (known : List String) (addrs : List String) : List String :=
  addrs.foldl
    (fun k address => if nodeIsKnown address k then k else k ++ [address]) known

/-- `handleAddr` after its payload decoded: merge each received address into
the known-node list when not already known; nothing is sent. -/
def handleAddr (st : NodeState) (p : AddrMsg) : NodeState × List Effect :=
  ({ st with knownNodes := mergeAddrs st.knownNodes p.AddrList }, [])

/-- Modelled from the spec: `handlePing` replies with a `pong` carrying the
same nonce to the sender.  The source reads `payload.AddrFrom`, a field the
`Ping` struct does not declare (a compile error in the source file), so the
sender's address is supplied here as an extra argument the wire payload does
not carry. -/
def handlePing (sender : String) (p : PingMsg) : List Effect :=
  [sendPong sender p.Nonce]

/-- `sendData`: a failed dial prints that the address is not available, drops
the message and returns; a failed write reaches `log.Panic`; otherwise the
message is written. -/
inductive SendOutcome where
  | droppedDialFailed (logged : String)
  | panicked
  | sent
deriving DecidableEq

/-- `sendData` as a function of whether the dial and the write succeed:
`panicked` models `log.Panic`, which in Go aborts the calling goroutine and —
with no `recover` anywhere in the file — the whole process. -/
def sendData (address : String) (dialOk writeOk : Bool) : SendOutcome :=
  if dialOk = false then SendOutcome.droppedDialFailed (address ++ " is not available")
  else if writeOk = false then SendOutcome.panicked
  else SendOutcome.sent

/-- Zigzag encoding of a signed integer into a natural, standing in for gob's
signed-integer wire form. -/
def intEnc (i : Int) : Nat :=
  if 0 ≤ i then 2 * i.toNat else 2 * (-i).toNat - 1

/-- Inverse of `intEnc`. -/
def intDec (n : Nat) : Int :=
  if n % 2 = 0 then ((n / 2 : Nat) : Int) else -(((n + 1) / 2 : Nat) : Int)

/-- Modelled gob encoding of a `Version` payload: the two integers followed by
the length-prefixed address bytes.  gob itself is an external library; what
the handlers rely on is that encode/decode round-trip and that decoding
malformed bytes fails. -/
def gobEncodeVersion (v : VersionMsg) : List Nat :=
  intEnc v.Version :: intEnc v.BestHeight :: v.AddrFrom.length ::
    (v.AddrFrom.toList.map Char.toNat)

/-- Modelled gob decoding of a `Version` payload: fails (`none`) on bytes that
are not a complete encoded value — in particular on the empty slice, where gob
reports EOF.  In the source, `gobDecode` answers this failure with
`log.Panic`. -/
def gobDecodeVersion : List Nat → Option VersionMsg
  | v :: h :: len :: rest =>
    if len = rest.length then
      some ⟨intDec v, intDec h, String.mk (rest.map Char.ofNat)⟩
    else none
  | _ => none

/-- `handleVersion` as entered from `handleConnection`, taking the raw payload
slice: the handler first calls `gobDecode`, which on malformed bytes calls
`log.Panic` — modelled as `none`, the abort of the goroutine and, with no
`recover` in the program, of the whole process. -/
def handleVersionWire (st : NodeState) (payloadBytes : List Nat) :
    Option (NodeState × List Effect) :=
  match gobDecodeVersion payloadBytes with
  | none => none
  | some p => some (handleVersion st p)

/-- A concrete version payload. -/
def exampleVersion : VersionMsg :=
  { Version := 1, BestHeight := 3, AddrFrom := "localhost:3001" }

/-- A full version frame as a peer would put it on the wire: the zero-padded
command "version" followed by the encoded payload. -/
def exampleVersionWire : List Nat :=
  [118, 101, 114, 115, 105, 111, 110] ++ List.replicate 5 0 ++
    gobEncodeVersion exampleVersion

lemma nodeIsKnown_iff (address : String) (known : List String) :
    nodeIsKnown address known = true ↔ address ∈ known := by
  simp only [nodeIsKnown, List.any_eq_true, beq_iff_eq]
  constructor
  · rintro ⟨x, hx, rfl⟩
    exact hx
  · intro h
    exact ⟨address, h, rfl⟩

lemma mem_mergeAddrs (addrs : List String) :
    ∀ (known : List String) (x : String), x ∈ known → x ∈ mergeAddrs known addrs := by
  induction addrs with
  | nil => intro known x hx; simpa [mergeAddrs] using hx
  | cons a addrs ih =>
    intro known x hx
    have hstep : mergeAddrs known (a :: addrs) =
        mergeAddrs (if nodeIsKnown a known then known else known ++ [a]) addrs := rfl
    rw [hstep]
    apply ih
    by_cases hk : nodeIsKnown a known <;> simp [hk, hx]

/-- Claim C1: on an inbound `tx` payload the handler adds the deserialized
transaction to the mempool; the bootstrap node (its address equal to the head
of the known-node list) then sends an `inv` of type "tx" naming the
transaction's ID to every known node except itself and the sender, and does
not mine; a non-bootstrap node mines exactly when the mempool size after the
insert is at least 2 and even, and sends nothing. -/
theorem handleTx_spec :
    ∀ (st : NodeState) (p : TxMsg),
      (st.nodeAddress = st.knownNodes.headD "" →
        handleTx st p =
          ({ st with bc := AddTxToMempool st.bc (DeserializeTransaction p.Transaction) },
            [Effect.logLine "Received a new transaction",
             Effect.logLine "Added transaction"] ++
            (st.knownNodes.filter
                (fun node => node != st.nodeAddress && node != p.AddrFrom)).map
              (fun node => sendInv st.nodeAddress node "tx"
                [(DeserializeTransaction p.Transaction).ID]))) ∧
      (st.nodeAddress ≠ st.knownNodes.headD "" →
        (2 ≤ (AddTxToMempool st.bc (DeserializeTransaction p.Transaction)).Mempool.length ∧
            (AddTxToMempool st.bc (DeserializeTransaction p.Transaction)).Mempool.length % 2 = 0 →
          handleTx st p =
            ({ st with
                bc := MineBlock (AddTxToMempool st.bc (DeserializeTransaction p.Transaction)) },
              [Effect.logLine "Received a new transaction",
               Effect.logLine "Added transaction"])) ∧
        (¬ (2 ≤ (AddTxToMempool st.bc (DeserializeTransaction p.Transaction)).Mempool.length ∧
            (AddTxToMempool st.bc (DeserializeTransaction p.Transaction)).Mempool.length % 2 = 0) →
          handleTx st p =
            ({ st with bc := AddTxToMempool st.bc (DeserializeTransaction p.Transaction) },
              [Effect.logLine "Received a new transaction",
               Effect.logLine "Added transaction"]))) := by
  intro st p
  refine ⟨?_, ?_⟩
  · intro h
    simp only [handleTx]
    rw [if_pos h]
  · intro h
    refine ⟨?_, ?_⟩
    · rintro ⟨h2a, h2b⟩
      simp only [handleTx]
      rw [if_neg h, if_pos (And.intro h2a h2b)]
    · intro h2
      simp only [handleTx]
      rw [if_neg h, if_neg h2]

/-- Claim C3: decoding an empty payload slice fails (gob reports EOF), and the
wire-level version handler then takes the `log.Panic` path — modelled `none` —
which, with no `recover` in the program, aborts not only the connection's
goroutine but the whole process; on a well-formed payload decoding succeeds.
Due to the single 12-byte read, the payload slice a handler decodes is always
empty, so this path is taken on every dispatched version frame. -/
theorem gobDecode_failure_is_panic :
    gobDecodeVersion [] = none ∧
    (∀ st : NodeState, handleVersionWire st (payloadSeen exampleVersionWire) = none) ∧
    gobDecodeVersion (gobEncodeVersion exampleVersion) = some exampleVersion := by
  refine ⟨rfl, ?_, by decide⟩
  intro st
  rw [payloadSeen_eq_nil]
  rfl

/-- Claim C4: on an inbound `version` payload the handler replies with this
node's own version message when the peer's protocol version is lower; surfaces
the local upgrade notice when it is higher; sends `getblocks` to the peer when
the peer's best height exceeds this node's; and appends the peer's address to
the known-node list exactly when it is not already known. -/
theorem handleVersion_spec :
    ∀ (st : NodeState) (p : VersionMsg),
      (p.Version < nodeVersion → sendVersion p.AddrFrom st ∈ (handleVersion st p).2) ∧
      (nodeVersion < p.Version →
        Effect.logLine "Please update your node software" ∈ (handleVersion st p).2) ∧
      (GetBestHeight st.bc < p.BestHeight →
        sendGetBlocks st.nodeAddress p.AddrFrom ∈ (handleVersion st p).2) ∧
      (p.AddrFrom ∉ st.knownNodes →
        (handleVersion st p).1.knownNodes = st.knownNodes ++ [p.AddrFrom]) ∧
      (p.AddrFrom ∈ st.knownNodes → (handleVersion st p).1.knownNodes = st.knownNodes) := by
  intro st p
  refine ⟨?_, ?_, ?_, ?_, ?_⟩
  · intro h
    simp [handleVersion, h]
  · intro h
    have h1 : ¬ p.Version < nodeVersion := by omega
    simp [handleVersion, h, h1]
  · intro h
    simp [handleVersion, h]
  · intro h
    have hk : nodeIsKnown p.AddrFrom st.knownNodes = false := by
      cases hnk : nodeIsKnown p.AddrFrom st.knownNodes with
      | false => rfl
      | true => exact absurd ((nodeIsKnown_iff _ _).mp hnk) h
    simp [handleVersion, hk]
  · intro h
    have hk : nodeIsKnown p.AddrFrom st.knownNodes = true := (nodeIsKnown_iff _ _).mpr h
    simp [handleVersion, hk]

/-- Claim C6 counterexample: from the initial peer set, a non-bootstrap node
receiving an `addr` message that lists the node's own address appends that
address — neither `handleAddr` nor `handleVersion` compares against
`nodeAddress`, so the node's own address is not kept out of the set. -/
def smallState : NodeState :=
  { nodeAddress := "localhost:3001",
    knownNodes := ["localhost:3000"],
    bc := { Blocks := [], Mempool := [] } }

/-- Claim C6 counterexample (see `smallState`): the node's own address is
absent from the known-node set, yet after handling an `addr` message naming
it, it is a member. -/
theorem self_address_inserted_cex :
    smallState.nodeAddress ∉ smallState.knownNodes ∧
    smallState.nodeAddress ∈
      (handleAddr smallState ⟨["localhost:3001"]⟩).1.knownNodes := by
  refine ⟨by decide, by decide⟩

/-- Claim C6 (amended): the bootstrap address "localhost:3000" is a member of
the initial known-node set and stays a member across every `version` and
`addr` handling, since both handlers only ever append to the list; the
self-exclusion half of the claimed invariant does not hold — the handlers test
only current membership, never equality with the node's own address. -/
theorem knownNodes_bootstrap_preserved (st : NodeState) (vp : VersionMsg)
    (ap : AddrMsg) (h : "localhost:3000" ∈ st.knownNodes) :
    "localhost:3000" ∈ initialKnownNodes ∧
    "localhost:3000" ∈ (handleVersion st vp).1.knownNodes ∧
    "localhost:3000" ∈ (handleAddr st ap).1.knownNodes := by
  refine ⟨by simp [initialKnownNodes], ?_, mem_mergeAddrs ap.AddrList st.knownNodes _ h⟩
  by_cases hk : nodeIsKnown vp.AddrFrom st.knownNodes <;> simp [handleVersion, hk, h]

/-- Claim C6 witness: the bootstrap-membership preservation at a concrete
non-bootstrap state and concrete version and addr payloads. -/
theorem knownNodes_bootstrap_preserved_witness :
    "localhost:3000" ∈ initialKnownNodes ∧
    "localhost:3000" ∈
      (handleVersion smallState ⟨1, 0, "localhost:3002"⟩).1.knownNodes ∧
    "localhost:3000" ∈
      (handleAddr smallState ⟨["localhost:3002"]⟩).1.knownNodes :=
  knownNodes_bootstrap_preserved smallState ⟨1, 0, "localhost:3002"⟩
    ⟨["localhost:3002"]⟩ (by decide)

/-- Claim C7: a failed dial is reported locally ("<address> is not available")
and the message is dropped with no retry; but a failed write after a
successful dial reaches `log.Panic`, crashing the calling handler (and, with
no `recover`, the process); a successful dial and write sends the message. -/
theorem sendData_write_failure_panics :
    sendData "localhost:3001" false true =
      SendOutcome.droppedDialFailed "localhost:3001 is not available" ∧
    sendData "localhost:3001" true false = SendOutcome.panicked ∧
    sendData "localhost:3001" true true = SendOutcome.sent := by
  refine ⟨by decide, rfl, rfl⟩

/-- Claim C9: the modelled ping handler sends exactly one message — a `pong`
to the supplied sender address carrying the same nonce — and takes no other
action; the sender address must be supplied from outside because the source's
`Ping` struct declares no `AddrFrom` field even though `handlePing` reads
one. -/
theorem handlePing_pong_nonce :
    ∀ (sender : String) (p : PingMsg),
      handlePing sender p = [Effect.send sender (Msg.pong p.Nonce)] :=
  fun _ _ => rfl

end Networkchain
